import Mathlib

/-!
# Verification of the symbolic-shape reasoning core
  (torch/fx/experimental/symbolic_shapes.py)

This file shallowly embeds the symbolic-shape engine: the expression
substrate (a small algebraic term language standing in for the sympy
expressions the code manipulates), the custom `FloorDiv` term with its
`eval` rules, the symbolic scalar type `PySymInt` with its generated
operator surface, the dispatch-mode slot, and the `ShapeEnv` environment
with `find` / `replace` / `simplify` / `evaluate_eq` / `evaluate_expr` /
`create_symint` / `create_shapes_for_args` / `evaluate_guards_for_args`.

Modelling conventions:
* Python ints are `Int`; Python `//` is `Int.fdiv` and `%` is `Int.fmod`
  (both floor-convention, matching Python exactly).
* sympy's automatic evaluation on construction is modelled by smart
  constructors (`mkAdd`, `mkMul`, `mkEq`, ...) that perform the constant
  folding and assumption-based folding the substrate performs on the
  expression forms this code builds.  All symbols created by this code are
  positive integers (`sympy.Symbol(..., positive=True, integer=True)`), so
  the bound computation below treats every symbol as `≥ 1`.
* Mutable state (the `ShapeEnv` fields, the process-wide dispatch slot) is
  threaded explicitly; a Python exception is an `Except.error` when the
  source raises it deliberately and an `Option.none` result when it is an
  internal assertion/attribute failure.
* The `@_lru_cache` / `@lru_cache` decorators only memoize deterministic
  computations (re-running the cached body at an unchanged key is a no-op),
  so the embedding evaluates the bodies directly.
-/

/-- The expression substrate: algebraic terms over integer literals,
booleans (sympy `BooleanTrue`/`BooleanFalse`, produced by evaluated
relationals), named symbols, arithmetic nodes, the custom `FloorDiv` node,
an exact-quotient node `div` (sympy `a/b`, which prints with a `/`),
and relational nodes. -/
inductive SymExpr where
  | intLit (n : Int)
  | boolLit (b : Bool)
  | sym (name : String)
  | add (a b : SymExpr)
  | mul (a b : SymExpr)
  | mod (a b : SymExpr)
  | floorDiv (a b : SymExpr)
  | div (a b : SymExpr)
  | eq (a b : SymExpr)
  | gt (a b : SymExpr)
  | lt (a b : SymExpr)
  | le (a b : SymExpr)
  | ge (a b : SymExpr)
deriving DecidableEq, Repr

/-- Insert into a list if not already present (models adding to a Python
set while keeping a deterministic order). -/
def insertAbsent {α : Type} [DecidableEq α] (l : List α) (x : α) : List α :=
  if x ∈ l then l else l ++ [x]

/-- Union of two dedup lists, keeping the order of the first. -/
def unionAbsent {α : Type} [DecidableEq α] (l1 l2 : List α) : List α :=
  l2.foldl insertAbsent l1

/-- `expr.free_symbols`: the names of the free symbols of an expression,
as a duplicate-free list. -/
def freeSymbolsList : SymExpr → List String
  | .intLit _ => []
  | .boolLit _ => []
  | .sym n => [n]
  | .add a b | .mul a b | .mod a b | .floorDiv a b | .div a b
  | .eq a b | .gt a b | .lt a b | .le a b | .ge a b =>
      unionAbsent (freeSymbolsList a) (freeSymbolsList b)

/-- An expression is concrete when it has no free symbols (the condition
asserted by `ShapeEnv.size_hint`). -/
def isConcrete (e : SymExpr) : Bool :=
  freeSymbolsList e = []

/-- Python truthiness of a sympy value: `Integer(0)` and `BooleanFalse`
are falsy, everything else reaching a `bool(...)` in this code is truthy. -/
def truthy : SymExpr → Bool
  | .intLit n => n ≠ 0
  | .boolLit b => b
  | _ => true

mutual
/-- A lower bound the substrate's assumption engine can deduce: every
symbol in this code is a positive integer, hence `≥ 1`. -/
def lowerBound : SymExpr → Option Int
  | .intLit n => some n
  | .sym _ => some 1
  | .add a b => (lowerBound a).bind fun x => (lowerBound b).map (fun y => x + y)
  | .mul (.intLit c) b =>
      if 0 ≤ c then (lowerBound b).map (fun y => c * y)
      else (upperBound b).map (fun y => c * y)
  | .mul a (.intLit c) =>
      if 0 ≤ c then (lowerBound a).map (fun y => y * c)
      else (upperBound a).map (fun y => y * c)
  | .mod _ (.intLit b) => if 0 < b then some 0 else none
  | _ => none

/-- An upper bound the substrate's assumption engine can deduce. -/
def upperBound : SymExpr → Option Int
  | .intLit n => some n
  | .add a b => (upperBound a).bind fun x => (upperBound b).map (fun y => x + y)
  | .mul (.intLit c) b =>
      if 0 ≤ c then (upperBound b).map (fun y => c * y)
      else (lowerBound b).map (fun y => c * y)
  | .mul a (.intLit c) =>
      if 0 ≤ c then (upperBound a).map (fun y => y * c)
      else (lowerBound a).map (fun y => y * c)
  | .mod _ (.intLit b) => if 0 < b then some (b - 1) else none
  | _ => none
end

/-- sympy `Add` automatic evaluation on the forms built here: fold two
numbers, drop a zero summand. -/
def mkAdd : SymExpr → SymExpr → SymExpr
  | .intLit x, .intLit y => .intLit (x + y)
  | .intLit 0, b => b
  | a, .intLit 0 => a
  | a, b => .add a b

/-- sympy `Mul` automatic evaluation on the forms built here: fold two
numbers, absorb zero, drop a unit factor. -/
def mkMul : SymExpr → SymExpr → SymExpr
  | .intLit x, .intLit y => .intLit (x * y)
  | .intLit 0, _ => .intLit 0
  | _, .intLit 0 => .intLit 0
  | .intLit 1, b => b
  | a, .intLit 1 => a
  | a, b => .mul a b

/-- sympy negation `-e = Mul(-1, e)` with the automatic flattening the
substrate performs (`-(c*x) = (-c)*x`, numbers fold). -/
def negE : SymExpr → SymExpr
  | .intLit n => .intLit (-n)
  | .mul (.intLit c) b => mkMul (.intLit (-c)) b
  | e => .mul (.intLit (-1)) e

/-- Python `a - b` on expressions: sympy builds `Add(a, Mul(-1, b))`. -/
def mkSub (a b : SymExpr) : SymExpr :=
  mkAdd a (negE b)

/-- sympy `Mod` automatic evaluation: numbers fold with Python `%`
semantics (sign of the divisor), `Mod(x, 1) = 0`, `Mod(0, d) = 0`.
Divisors in this development are positive, so the numeric fold never
hits a zero divisor. -/
def mkMod : SymExpr → SymExpr → SymExpr
  | .intLit a, .intLit b => .intLit (Int.fmod a b)
  | _, .intLit 1 => .intLit 0
  | .intLit 0, _ => .intLit 0
  | a, b => .mod a b

/-- sympy exact quotient `a / b` (`Mul(a, Pow(b, -1))`): numbers fold to
an integer when the division is exact; otherwise a `div` node (whose
string rendering contains a `/`) is kept. -/
def mkDiv : SymExpr → SymExpr → SymExpr
  | .intLit a, .intLit b =>
      if b ≠ 0 ∧ b ∣ a then .intLit (a / b) else .div (.intLit a) (.intLit b)
  | a, .intLit 1 => a
  | a, b => .div a b

/-- `sympy.gcd(base, divisor)` restricted to the argument forms this
development constructs: two numbers have their numeric gcd; any pair
involving a bare positive symbol (or another non-numeric term with no
shared factor) has gcd 1. -/
def symGcd : SymExpr → SymExpr → Int
  | .intLit a, .intLit b => Int.gcd a b
  | _, _ => 1

/-- `base / g` for the gcd-reduction branch of `FloorDiv.eval`
(`sympy.simplify(base / gcd)`).  Under `symGcd` above a non-unit gcd only
arises for two numeric arguments, which `eval` has already consumed, so
this helper is only ever applied with `g = 1`. -/
def gcdQuot (e : SymExpr) (g : Int) : SymExpr :=
  match e with
  | .intLit n => .intLit (n / g)
  | e => e

/-- `FloorDiv(base, divisor)`: construction runs the classmethod
`FloorDiv.eval`; when `eval` returns a value the node is never allocated,
otherwise the symbolic `floorDiv` node is retained.  The branches follow
the source order:
1. `base == 0` → `Integer(0)`;
2. `divisor == 1` → `base`;
3. both `Integer` → `base // divisor` (Python floor division; divisors are
   nonzero whenever this code constructs a numeric `FloorDiv`);
4. nested `FloorDiv` base → `FloorDiv(base.args[0], base.args[1]*divisor)`;
5. gcd reduction when `gcd(base, divisor) ≠ 1`;
6. otherwise the node is retained. -/
def mkFloorDiv (base divisor : SymExpr) : SymExpr :=
  if base = .intLit 0 then .intLit 0
  else if divisor = .intLit 1 then base
  else
    match base, divisor with
    | .intLit a, .intLit b => .intLit (Int.fdiv a b)
    | .floorDiv b0 d0, divisor => mkFloorDiv b0 (mkMul d0 divisor)
    | base, divisor =>
        let g := symGcd base divisor
        if g ≠ 1 then .floorDiv (gcdQuot base g) (gcdQuot divisor g)
        else .floorDiv base divisor

/-- The assumption engine can prove the term strictly positive. -/
def provablyPos (d : SymExpr) : Bool :=
  match lowerBound d with
  | some lb => 0 < lb
  | none => false

/-- The assumption engine can prove the term nonnegative. -/
def provablyNonneg (d : SymExpr) : Bool :=
  match lowerBound d with
  | some lb => 0 ≤ lb
  | none => false

/-- The assumption engine can prove the term nonpositive. -/
def provablyNonpos (d : SymExpr) : Bool :=
  match upperBound d with
  | some ub => ub ≤ 0
  | none => false

/-- The assumption engine can prove the term strictly negative. -/
def provablyNeg (d : SymExpr) : Bool :=
  match upperBound d with
  | some ub => ub < 0
  | none => false

/-- sympy `Eq` automatic evaluation: structurally identical sides give
`True`, two numbers compare, and the assumption engine refutes an
equality whose difference is provably nonzero. -/
def mkEq (a b : SymExpr) : SymExpr :=
  if a = b then .boolLit true
  else
    match a, b with
    | .intLit x, .intLit y => .boolLit (decide (x = y))
    | .boolLit x, .boolLit y => .boolLit (decide (x = y))
    | a, b =>
        if provablyPos (mkSub a b) ∨ provablyNeg (mkSub a b) then .boolLit false
        else .eq a b

/-- sympy `Gt` automatic evaluation through the assumption engine. -/
def mkGt (a b : SymExpr) : SymExpr :=
  if provablyPos (mkSub a b) then .boolLit true
  else if provablyNonpos (mkSub a b) then .boolLit false
  else .gt a b

/-- sympy `Lt` automatic evaluation. -/
def mkLt (a b : SymExpr) : SymExpr :=
  if provablyPos (mkSub b a) then .boolLit true
  else if provablyNonpos (mkSub b a) then .boolLit false
  else .lt a b

/-- sympy `Le` automatic evaluation. -/
def mkLe (a b : SymExpr) : SymExpr :=
  if provablyNonneg (mkSub b a) then .boolLit true
  else if provablyNeg (mkSub b a) then .boolLit false
  else .le a b

/-- sympy `Ge` automatic evaluation. -/
def mkGe (a b : SymExpr) : SymExpr :=
  if provablyNonneg (mkSub a b) then .boolLit true
  else if provablyNeg (mkSub a b) then .boolLit false
  else .ge a b

/-- Association-list lookup keyed by expressions (a Python dict keyed by
sympy objects). -/
def alookup : List (SymExpr × SymExpr) → SymExpr → Option SymExpr
  | [], _ => none
  | (k, v) :: t, a => if k = a then some v else alookup t a

/-- Python dict assignment `d[k] = v`: overwrite in place, or append a new
binding at the end (dicts preserve insertion order). -/
def aset : List (SymExpr × SymExpr) → SymExpr → SymExpr → List (SymExpr × SymExpr)
  | [], k, v => [(k, v)]
  | (k0, v0) :: t, k, v => if k0 = k then (k, v) :: t else (k0, v0) :: aset t k v

/-- Association-list lookup keyed by symbol names (`var_to_val`). -/
def nlookup : List (String × Int) → String → Option Int
  | [], _ => none
  | (k, v) :: t, a => if k = a then some v else nlookup t a

/-- Dict assignment for `var_to_val`. -/
def nset : List (String × Int) → String → Int → List (String × Int)
  | [], k, v => [(k, v)]
  | (k0, v0) :: t, k, v => if k0 = k then (k, v) :: t else (k0, v0) :: nset t k v

/-- `expr.xreplace(mapping)`: exact-subtree replacement; untouched nodes
are rebuilt through the substrate constructors, which re-runs their
automatic evaluation (this is how substituted expressions collapse to
concrete values). -/
def xreplace (m : List (SymExpr × SymExpr)) : SymExpr → SymExpr
  | .add a b =>
      match alookup m (.add a b) with
      | some v => v
      | none => mkAdd (xreplace m a) (xreplace m b)
  | .mul a b =>
      match alookup m (.mul a b) with
      | some v => v
      | none => mkMul (xreplace m a) (xreplace m b)
  | .mod a b =>
      match alookup m (.mod a b) with
      | some v => v
      | none => mkMod (xreplace m a) (xreplace m b)
  | .floorDiv a b =>
      match alookup m (.floorDiv a b) with
      | some v => v
      | none => mkFloorDiv (xreplace m a) (xreplace m b)
  | .div a b =>
      match alookup m (.div a b) with
      | some v => v
      | none => mkDiv (xreplace m a) (xreplace m b)
  | .eq a b =>
      match alookup m (.eq a b) with
      | some v => v
      | none => mkEq (xreplace m a) (xreplace m b)
  | .gt a b =>
      match alookup m (.gt a b) with
      | some v => v
      | none => mkGt (xreplace m a) (xreplace m b)
  | .lt a b =>
      match alookup m (.lt a b) with
      | some v => v
      | none => mkLt (xreplace m a) (xreplace m b)
  | .le a b =>
      match alookup m (.le a b) with
      | some v => v
      | none => mkLe (xreplace m a) (xreplace m b)
  | .ge a b =>
      match alookup m (.ge a b) with
      | some v => v
      | none => mkGe (xreplace m a) (xreplace m b)
  | e =>
      match alookup m e with
      | some v => v
      | none => e

/-- `sympy.expand(expr)` on the expression forms this development builds:
re-evaluation of every node through the substrate constructors.  (The
expansion of a product over a sum is part of sympy's `expand` but no
expression constructed in this development contains an unexpanded such
product, so it does not appear in the model.) -/
def expand : SymExpr → SymExpr
  | .add a b => mkAdd (expand a) (expand b)
  | .mul a b => mkMul (expand a) (expand b)
  | .mod a b => mkMod (expand a) (expand b)
  | .floorDiv a b => mkFloorDiv (expand a) (expand b)
  | .div a b => mkDiv (expand a) (expand b)
  | .eq a b => mkEq (expand a) (expand b)
  | .gt a b => mkGt (expand a) (expand b)
  | .lt a b => mkLt (expand a) (expand b)
  | .le a b => mkLe (expand a) (expand b)
  | .ge a b => mkGe (expand a) (expand b)
  | e => e

/-- `expr.atoms(FloorDiv)`: every `FloorDiv` subterm, as a dedup list. -/
def atomsFloorDiv : SymExpr → List SymExpr
  | .floorDiv a b =>
      insertAbsent (unionAbsent (atomsFloorDiv a) (atomsFloorDiv b)) (.floorDiv a b)
  | .add a b | .mul a b | .mod a b | .div a b
  | .eq a b | .gt a b | .lt a b | .le a b | .ge a b =>
      unionAbsent (atomsFloorDiv a) (atomsFloorDiv b)
  | _ => []

/-- `expr.atoms(sympy.Mod)`: every `Mod` subterm, as a dedup list. -/
def atomsMod : SymExpr → List SymExpr
  | .mod a b =>
      insertAbsent (unionAbsent (atomsMod a) (atomsMod b)) (.mod a b)
  | .add a b | .mul a b | .floorDiv a b | .div a b
  | .eq a b | .gt a b | .lt a b | .le a b | .ge a b =>
      unionAbsent (atomsMod a) (atomsMod b)
  | _ => []

/-- Syntactic subterm test (used to detect occurrences of the solve
target). -/
def occursIn (t : SymExpr) : SymExpr → Bool
  | .add a b => .add a b = t || occursIn t a || occursIn t b
  | .mul a b => .mul a b = t || occursIn t a || occursIn t b
  | .mod a b => .mod a b = t || occursIn t a || occursIn t b
  | .floorDiv a b => .floorDiv a b = t || occursIn t a || occursIn t b
  | .div a b => .div a b = t || occursIn t a || occursIn t b
  | .eq a b => .eq a b = t || occursIn t a || occursIn t b
  | .gt a b => .gt a b = t || occursIn t a || occursIn t b
  | .lt a b => .lt a b = t || occursIn t a || occursIn t b
  | .le a b => .le a b = t || occursIn t a || occursIn t b
  | .ge a b => .ge a b = t || occursIn t a || occursIn t b
  | e => e = t

/-- The symbol `n` occurs underneath a `Mod` node. -/
def containsSymUnderMod (n : String) (e : SymExpr) : Bool :=
  (atomsMod e).any (fun m => n ∈ freeSymbolsList m)

/-- `str(solution)` contains a `/`: the solution has a fractional part
(either an exact-quotient node or a non-integer rational literal, both of
which sympy prints with a slash). -/
def hasDivTok : SymExpr → Bool
  | .div _ _ => true
  | .add a b | .mul a b | .mod a b | .floorDiv a b
  | .eq a b | .gt a b | .lt a b | .le a b | .ge a b => hasDivTok a || hasDivTok b
  | _ => false

/-- Decompose `e` as `c * target + rest` with `rest` free of `target`:
returns `none` when `e` is not linear in `target`. -/
def collectLinear (target : SymExpr) : SymExpr → Option (Int × SymExpr)
  | .add a b =>
      if SymExpr.add a b = target then some (1, .intLit 0)
      else
        (collectLinear target a).bind fun p =>
        (collectLinear target b).map fun q => (p.1 + q.1, mkAdd p.2 q.2)
  | .mul a b =>
      if SymExpr.mul a b = target then some (1, .intLit 0)
      else
        match a, b with
        | .intLit c, b =>
            (collectLinear target b).map fun q => (c * q.1, mkMul (.intLit c) q.2)
        | a, .intLit c =>
            (collectLinear target a).map fun p => (p.1 * c, mkMul p.2 (.intLit c))
        | a, b =>
            if occursIn target (.mul a b) then none else some (0, .mul a b)
  | e =>
      if e = target then some (1, .intLit 0)
      else if occursIn target e then none
      else some (0, e)

/-- The closed-form solution of `c * target + rest = 0`, rendered the way
sympy renders it (an exact integer when possible, otherwise a quotient
that prints with a `/`). -/
def linearSolution (c : Int) (rest : SymExpr) : SymExpr :=
  if c = 1 then negE rest
  else if c = -1 then rest
  else
    match rest with
    | .intLit r => if c ∣ r then .intLit (-r / c) else .div (.intLit (-r)) (.intLit c)
    | rest => .div (negE rest) (.intLit c)

/-- Model of `sympy.solve(e, target)` restricted to the expression forms
this development constructs: an equation whose unknown occurs under a
`Mod` raises `NotImplementedError` (the `.error` case); an equation linear
in the unknown is solved in closed form; an unknown absent from the
equation yields no solutions; anything else raises
`NotImplementedError`. -/
def sympySolve (e target : SymExpr) : Except Unit (List SymExpr) :=
  let notImpl : Except Unit (List SymExpr) := .error ()
  match target with
  | .sym n =>
      if containsSymUnderMod n e then notImpl
      else
        match collectLinear target e with
        | none => notImpl
        | some (c, rest) => if c = 0 then .ok [] else .ok [linearSolution c rest]
  | _ =>
      match collectLinear target e with
      | none => notImpl
      | some (c, rest) => if c = 0 then .ok [] else .ok [linearSolution c rest]

/-! ## Dispatch-mode stack (`SYM_FUNCTION_MODE`, `SymDispatchMode`) -/

/-- Lookup in an association list keyed by mode identifiers. -/
def mlookup : List (Nat × Option Nat) → Nat → Option (Option Nat)
  | [], _ => none
  | (k, v) :: t, a => if k = a then some v else mlookup t a

/-- Assignment in an association list keyed by mode identifiers. -/
def mset : List (Nat × Option Nat) → Nat → Option Nat → List (Nat × Option Nat)
  | [], k, v => [(k, v)]
  | (k0, v0) :: t, k, v => if k0 = k then (k, v) :: t else (k0, v0) :: mset t k v

/-- The process-wide dispatch state: `slot` is the module-level global
`SYM_FUNCTION_MODE` (a mode identifier, or `none`), and `inner` records,
for each mode object that has an `inner` attribute, the saved value of
that attribute (`hasattr(self, "inner")` holds exactly when the mode
identifier is a key of the list). -/
structure DispatchWorld where
  slot : Option Nat
  inner : List (Nat × Option Nat)
deriving DecidableEq, Repr

/-- `SymDispatchMode.__enter__`: saves the current global into the mode's
`inner` attribute and installs the mode, unless the mode object already
has an `inner` attribute (it was entered before), in which case it raises. -/
def SymDispatchMode.enter (w : DispatchWorld) (m : Nat) : Except String DispatchWorld :=
  let old := w.slot
  match mlookup w.inner m with
  | some _ =>
      .error "has already been used as a mode. Please use a fresh version"
  | none =>
      .ok { slot := some m, inner := mset w.inner m old }

/-- `SymDispatchMode.__exit__`: restores the saved inner mode; reading the
`inner` attribute of a never-entered mode would be an `AttributeError`
(`none`). -/
def SymDispatchMode.exitMode (w : DispatchWorld) (m : Nat) : Option DispatchWorld :=
  match mlookup w.inner m with
  | some saved => some { w with slot := saved }
  | none => none

/-- `_handle_sym_dispatch(func, args, kwargs)`: asserts a mode is active,
swaps the global to the mode's saved `inner` for the duration of the
handler call, invokes `mode.__sym_dispatch__`, and restores the mode in a
`finally` block — so the restoration happens whether the handler returns
normally or raises (the handler's result is an arbitrary
`Except String α`, and it may itself mutate the dispatch state).
`dispatchOf m` is mode `m`'s `__sym_dispatch__` handler. -/
def handleSymDispatch {α : Type}
    (dispatchOf : Nat → DispatchWorld → DispatchWorld × Except String α)
    (w : DispatchWorld) : Option (DispatchWorld × Except String α) :=
  match w.slot with
  | none => none
  | some m =>
      match mlookup w.inner m with
      | none => none
      | some i =>
          let out := dispatchOf m { w with slot := i }
          some ({ out.1 with slot := some m }, out.2)

/-! ## Symbolic scalars (`PySymInt`) and the generated operator surface -/

/-- `PySymInt`: an expression, a reference to the owning `ShapeEnv`
(modelled as an opaque identifier), and the optional constant fast path. -/
structure PySymInt where
  expr : SymExpr
  shape_env : Nat
  constant : Option Int := none
deriving DecidableEq, Repr

/-- `PySymInt.__int__`: always raises — plain `int()` coercion of a
symbolic integer is a usage error. -/
def PySymInt.int_coerce (_self : PySymInt) : Except String Int :=
  .error "Trying to extract a concrete int out of a symbolic int"

/-- The `other` operand of a magic method: either another `PySymInt`
(unwrapped to its expression) or a plain value the substrate sympifies. -/
inductive SymOperand where
  | psi (p : PySymInt)
  | plain (e : SymExpr)
deriving DecidableEq, Repr

/-- `if isinstance(other, PySymInt): other = other.expr`. -/
def unwrapOperand : SymOperand → SymExpr
  | .psi p => p.expr
  | .plain e => e

/-- The outcome of a magic method: either a fresh `PySymInt` built in the
same environment, or — when a dispatch mode is active — the deferred call
`_handle_sym_dispatch(getattr(operator, method_name), (self, other), {})`,
recorded with the operator name it passes. -/
inductive MagicOut where
  | result (p : PySymInt)
  | dispatched (method_name : String) (self : PySymInt) (other : SymOperand)
deriving DecidableEq, Repr

/-- `magic_impl` as produced by `_create_magic_impl(func)` for a given
`method_name`: dispatch to the active mode if any, otherwise unwrap the
operand and build a new `PySymInt` over `func(self.expr, other)`. -/
def magic_impl (func : SymExpr → SymExpr → SymExpr) (method_name : String)
    (modeActive : Bool) (self : PySymInt) (other : SymOperand) : MagicOut :=
  if modeActive then .dispatched method_name self other
  else .result { expr := func self.expr (unwrapOperand other), shape_env := self.shape_env }

/-- The `reflectable_magic_methods` table (methods that get a `__rfoo__`
in addition to `__foo__`). -/
def reflectable_magic_methods : List (String × (SymExpr → SymExpr → SymExpr)) :=
  [("add", fun a b => mkAdd a b),
   ("sub", fun a b => mkSub a b),
   ("mul", fun a b => mkMul a b),
   ("mod", fun a b => mkMod a b),
   ("floordiv", fun a b => mkFloorDiv a b)]

/-- The full `magic_methods` table. -/
def magic_methods : List (String × (SymExpr → SymExpr → SymExpr)) :=
  reflectable_magic_methods ++
  [("eq", fun a b => mkEq a b),
   ("gt", fun a b => mkGt a b),
   ("lt", fun a b => mkLt a b),
   ("le", fun a b => mkLe a b),
   ("ge", fun a b => mkGe a b)]

/-- Table lookup by method name. -/
def flookup : List (String × (SymExpr → SymExpr → SymExpr)) → String →
    Option (SymExpr → SymExpr → SymExpr)
  | [], _ => none
  | (k, f) :: t, m => if k = m then some f else flookup t m

/-- The registration loop's effect for `__{method}__`: every entry of
`magic_methods` gets `_create_magic_impl(_func)` installed under its own
name. -/
def pySymIntMethod (method : String) :
    Option (Bool → PySymInt → SymOperand → MagicOut) :=
  (flookup magic_methods method).map (fun f => magic_impl f method)

/-- The registration loop's effect for `__r{method}__`: only entries of
`reflectable_magic_methods` get a reflected form, and it is the very same
`_create_magic_impl(_func)` closure (same `func`, same `method_name`). -/
def pySymIntRMethod (method : String) :
    Option (Bool → PySymInt → SymOperand → MagicOut) :=
  (flookup reflectable_magic_methods method).map (fun f => magic_impl f method)

/-! ## The shape environment (`ShapeEnv`) -/

/-- `ShapeEnv.__init__`: the guard log, the symbol→concrete-size bindings
(keyed by symbol name — symbols in this code are uniquely identified by
their name), the substitution map and the divisibility-fact set (a Python
set, modelled as a dedup list in deterministic order). -/
structure ShapeEnv where
  guards : List (SymExpr × SymExpr)
  var_to_val : List (String × Int)
  replacements : List (SymExpr × SymExpr)
  divisible : List SymExpr
deriving DecidableEq, Repr

/-- A fresh environment. -/
def ShapeEnv.init : ShapeEnv :=
  { guards := [], var_to_val := [], replacements := [], divisible := [] }

/-- `ShapeEnv._get_key`: the count-based cache fingerprint. -/
def ShapeEnv.get_key (env : ShapeEnv) : Nat × Nat :=
  (env.replacements.length, env.divisible.length)

/-- The value returned by `create_symint`: either the literal (for the
0/1 specialization) or a symbolic integer (the `torch.SymIntNode` box is
transparent here; what matters is the wrapped `PySymInt`). -/
inductive SymIntOrInt where
  | lit (v : Int)
  | symint (p : PySymInt)
deriving DecidableEq, Repr

/-- `ShapeEnv.create_symint(name, val)`: raises without sympy
(`hasSympy` is the module-level `HAS_SYMPY`); returns the plain value for
the 0/1 specialization; otherwise mints a positive integer symbol, records
its concrete value and returns the wrapped symbol.  (There is exactly one
live environment, so the `PySymInt.shape_env` back-reference is the
constant identifier 0.) -/
def ShapeEnv.create_symint (hasSympy : Bool) (env : ShapeEnv)
    (name : String) (val : Int) : Except String (ShapeEnv × SymIntOrInt) :=
  if ¬ hasSympy then .error "Need sympy installed to create symbolic shapes"
  else if val = 0 ∨ val = 1 then .ok (env, .lit val)
  else
    let sympy_expr := SymExpr.sym name
    .ok ({ env with var_to_val := nset env.var_to_val name val },
         .symint { expr := sympy_expr, shape_env := 0 })

/-- A leaf of the argument structure: a tensor (with a Python object
identity and a shape) or a non-tensor value that passes through. -/
inductive PyLeaf where
  | tensor (tid : Nat) (shape : List Int)
  | const (v : Int)
deriving DecidableEq, Repr

/-- An arbitrarily nested argument structure (a pytree). -/
inductive Pytree where
  | leaf (x : PyLeaf)
  | node (xs : List Pytree)
deriving Repr

mutual
/-- `pytree.tree_flatten(args)[0]`: the leaves in left-to-right order. -/
def treeFlatten : Pytree → List PyLeaf
  | .leaf x => [x]
  | .node xs => treeFlattenList xs

/-- Flatten a list of pytrees. -/
def treeFlattenList : List Pytree → List PyLeaf
  | [] => []
  | t :: ts => treeFlatten t ++ treeFlattenList ts
end

/-- One element of `create_shapes_for_args`'s result: a non-tensor leaf
passed through unchanged, or the per-dimension list for a tensor leaf. -/
inductive ShapeElem where
  | passthrough (x : PyLeaf)
  | shape (dims : List SymIntOrInt)
deriving DecidableEq, Repr

/-- The list comprehension
`[self.create_symint(f"s_{arg_cnt}[{idx}]", sz) for idx, sz in enumerate(x.shape)]`. -/
def createShapeDims (hasSympy : Bool) (env : ShapeEnv) (arg_cnt : Nat) :
    List (Nat × Int) → Except String (ShapeEnv × List SymIntOrInt)
  | [] => .ok (env, [])
  | (idx, sz) :: rest =>
      match ShapeEnv.create_symint hasSympy env (s!"s_{arg_cnt}[{idx}]") sz with
      | .error m => .error m
      | .ok (env1, v) =>
          match createShapeDims hasSympy env1 arg_cnt rest with
          | .error m => .error m
          | .ok (env2, vs) => .ok (env2, v :: vs)

/-- The inner `create_shape(x)` closure: non-tensors pass through and do
not touch `arg_cnt`; a tensor gets one fresh symbol per dimension, named
after the running tensor counter `arg_cnt` (which then increments).
Nothing inspects the tensor's identity: every occurrence is processed
independently. -/
def ShapeEnv.create_shape (hasSympy : Bool) (env : ShapeEnv) (arg_cnt : Nat)
    (x : PyLeaf) : Except String (ShapeEnv × Nat × ShapeElem) :=
  match x with
  | .const v => .ok (env, arg_cnt, .passthrough (.const v))
  | .tensor _tid shape =>
      match createShapeDims hasSympy env arg_cnt shape.enum with
      | .error m => .error m
      | .ok (env1, dims) => .ok (env1, arg_cnt + 1, .shape dims)

/-- `list(map(create_shape, pytree.tree_flatten(args)[0]))`. -/
def createShapesList (hasSympy : Bool) (env : ShapeEnv) (arg_cnt : Nat) :
    List PyLeaf → Except String (ShapeEnv × List ShapeElem)
  | [] => .ok (env, [])
  | x :: rest =>
      match ShapeEnv.create_shape hasSympy env arg_cnt x with
      | .error m => .error m
      | .ok (env1, cnt1, el) =>
          match createShapesList hasSympy env1 cnt1 rest with
          | .error m => .error m
          | .ok (env2, els) => .ok (env2, el :: els)

/-- `ShapeEnv.create_shapes_for_args(args)`: flatten, then map
`create_shape` over the leaves with the shared `arg_cnt` counter. -/
def ShapeEnv.create_shapes_for_args (hasSympy : Bool) (env : ShapeEnv)
    (args : Pytree) : Except String (ShapeEnv × List ShapeElem) :=
  createShapesList hasSympy env 0 (treeFlatten args)

/-- The formal parameters declared by the `def` line of
`ShapeEnv.create_shapes_for_args` in the source: `(self, args)` — no
`var_to_val` parameter and no `**kwargs`. -/
def create_shapes_for_args_params : List String := ["self", "args"]

/-- `ShapeEnv.create_shapes_for_args` declares no `**kwargs`. -/
def create_shapes_for_args_has_kwargs : Bool := false

/-- Python keyword-argument binding: a keyword is accepted only if its
name is a declared parameter or the callee has `**kwargs`; otherwise the
call raises `TypeError` before the callee body runs. -/
def pyKeywordAccepted (params : List String) (hasVarKw : Bool) (kw : String) : Bool :=
  kw ∈ params || hasVarKw

/-- `ShapeEnv.evaluate_guards_for_args(*args)`: the body executes
`env = {}` and then `_ = self.create_shapes_for_args(args, var_to_val=env)`.
The callee's signature (see `create_shapes_for_args_params`) declares no
`var_to_val` parameter, so the keyword fails to bind and the call raises
`TypeError` before any shape is rebound or any guard is checked. -/
def ShapeEnv.evaluate_guards_for_args (env : ShapeEnv) (_args : Pytree) :
    Except String Bool :=
  if pyKeywordAccepted create_shapes_for_args_params
      create_shapes_for_args_has_kwargs "var_to_val" then
    -- Unreachable for the source as written; were the binding to succeed,
    -- the body would return `all(guard.xreplace(env) == value for ...)`.
    .ok (env.guards.all (fun gv => decide (gv.1 = gv.2)))
  else
    .error "TypeError: create_shapes_for_args() got an unexpected keyword argument"

/-- `ShapeEnv.size_hint(expr)`:
`sympy.expand(expr).xreplace(self.var_to_val)`.  The `assert` in the
source (the result must have no free symbols) is checked by the callers
of this model via `isConcrete`. -/
def ShapeEnv.size_hint (env : ShapeEnv) (expr : SymExpr) : SymExpr :=
  xreplace (env.var_to_val.map (fun p => (SymExpr.sym p.1, SymExpr.intLit p.2)))
    (expand expr)

/-- The first loop of `ShapeEnv.find`: walk `a` through `replacements`
to its root.  The fuel bounds the walk by the map size, which is enough
for the acyclic chains this code creates (Python's unguarded `while`
would diverge on a cyclic chain). -/
def findRoot (repl : List (SymExpr × SymExpr)) : SymExpr → Nat → SymExpr
  | a, 0 => a
  | a, fuel + 1 =>
      match alookup repl a with
      | none => a
      | some b => findRoot repl b fuel

/-- The second loop of `ShapeEnv.find`: path compression.  Each node of
the original chain is rebound to the root; the next node is read from the
value the map held *before* that rebinding, exactly as the simultaneous
assignment in the source does. -/
def compressPath (root : SymExpr) :
    List (SymExpr × SymExpr) → SymExpr → Nat → List (SymExpr × SymExpr)
  | repl, _, 0 => repl
  | repl, a, fuel + 1 =>
      match alookup repl a with
      | none => repl
      | some nxt => compressPath root (aset repl a root) nxt fuel

/-- `ShapeEnv.find(a)`: union-find lookup with path compression; mutates
`replacements` (values only, never the key set). -/
def ShapeEnv.find (env : ShapeEnv) (a : SymExpr) : ShapeEnv × SymExpr :=
  let fuel := env.replacements.length + 1
  let root := findRoot env.replacements a fuel
  ({ env with replacements := compressPath root env.replacements a fuel }, root)

/-- The dict comprehension `{s: self.find(s) for s in expr.free_symbols}`
(each `find` call may compress paths, so the environment threads through). -/
def ShapeEnv.buildRepl (env : ShapeEnv) :
    List String → ShapeEnv × List (SymExpr × SymExpr)
  | [] => (env, [])
  | n :: rest =>
      let p := env.find (.sym n)
      let q := ShapeEnv.buildRepl p.1 rest
      (q.1, (SymExpr.sym n, p.2) :: q.2)

/-- `ShapeEnv.replace(expr)`: substitute every free symbol through the
current `replacements` chains. -/
def ShapeEnv.replace (env : ShapeEnv) (expr : SymExpr) : ShapeEnv × SymExpr :=
  let p := env.buildRepl (freeSymbolsList expr)
  (p.1, xreplace p.2 expr)

/-- The loop body of `ShapeEnv.update_divisible`: rebuild the divisible
set, re-simplifying each recorded term under the current substitutions and
*discarding* any that became fully concrete. -/
def ShapeEnv.updateDivisibleGo (env : ShapeEnv) (acc : List SymExpr) :
    List SymExpr → ShapeEnv × List SymExpr
  | [] => (env, acc)
  | a :: rest =>
      let p := env.replace a
      let res := expand p.2
      if (freeSymbolsList res).length > 0 then
        ShapeEnv.updateDivisibleGo p.1 (insertAbsent acc res) rest
      else
        ShapeEnv.updateDivisibleGo p.1 acc rest

/-- `ShapeEnv.update_divisible()`. -/
def ShapeEnv.update_divisible (env : ShapeEnv) : ShapeEnv :=
  let p := ShapeEnv.updateDivisibleGo env [] env.divisible
  { p.1 with divisible := p.2 }

/-- `ShapeEnv.simplify(expr)`: expand under the substitution map; if any
`FloorDiv` atoms remain, refresh the divisible set and rewrite every
divisible `FloorDiv` atom into the exact quotient of its arguments,
re-expanding afterwards. -/
def ShapeEnv.simplify (env : ShapeEnv) (expr : SymExpr) : ShapeEnv × SymExpr :=
  let p := env.replace expr
  let expr1 := expand p.2
  if (atomsFloorDiv expr1).length > 0 then
    let env1 := p.1.update_divisible
    let expr2 := (atomsFloorDiv expr1).foldl
      (fun e atom =>
        if atom ∈ env1.divisible then
          match atom with
          | .floorDiv a b => xreplace [(atom, mkDiv a b)] e
          | _ => e
        else e)
      expr1
    (env1, expand expr2)
  else
    (p.1, expr1)

/-- `ShapeEnv.maybe_evaluate_static(expr)`: substitute every free symbol
with a fresh placeholder `Symbol(f"shape_{idx}", positive=True,
integer=True) + 1` (an integer known only to be greater than 1), expand,
and return the result exactly when it collapsed to a concrete value. -/
def ShapeEnv.maybe_evaluate_static (_self : ShapeEnv) (expr : SymExpr) :
    Option SymExpr :=
  let symbols := freeSymbolsList expr
  let new_shape_env := symbols.enum.map
    (fun p => (SymExpr.sym p.2, mkAdd (SymExpr.sym (s!"shape_{p.1}")) (.intLit 1)))
  let new_expr := expand (xreplace new_shape_env expr)
  if (freeSymbolsList new_expr).length = 0 then some new_expr else none

/-- `self.size_hint(x)` for a single symbol, as used by the sort key in
`evaluate_eq`.  Every free symbol reaching this lookup is bound in
`var_to_val` (the concrete truth value of the whole equality has already
evaluated), so the default is never consulted. -/
def ShapeEnv.hintOf (env : ShapeEnv) (n : String) : Int :=
  (nlookup env.var_to_val n).getD 0

/-- Python's lexicographic string comparison (`a <= b`), computed on the
code-point sequences. -/
def listLeB : List Char → List Char → Bool
  | [], _ => true
  | _ :: _, [] => false
  | c :: cs, d :: ds =>
      if c.toNat < d.toNat then true
      else if d.toNat < c.toNat then false
      else listLeB cs ds

/-- `a <= b` on Python strings. -/
def strLeB (a b : String) : Bool :=
  listLeB a.data b.data

/-- The sort key ordering of
`sorted(free, key=lambda x: (-self.size_hint(x), x.name))`: `a` comes
before `b` when its hint is larger, ties broken by the symbol name
(Python's lexicographic string order). -/
def ShapeEnv.hintBefore (env : ShapeEnv) (a b : String) : Bool :=
  decide (env.hintOf b < env.hintOf a) ||
    (decide (env.hintOf a = env.hintOf b) && strLeB a b)

/-- Insert into a list sorted by `le`. -/
def insertSorted (le : String → String → Bool) (x : String) :
    List String → List String
  | [] => [x]
  | y :: ys => if le x y then x :: y :: ys else y :: insertSorted le x ys

/-- Insertion sort by `le` (a model of Python's `sorted`; the key function
used here is a total order, so any sorting algorithm gives this order). -/
def sortByKey (le : String → String → Bool) : List String → List String
  | [] => []
  | x :: xs => insertSorted le x (sortByKey le xs)

/-- `ShapeEnv.evaluate_eq(expr)`:
1. compute the concrete truth value from the real bindings and append
   `(expr, value)` to the guard log unconditionally;
2. if falsy, return it immediately;
3. assert the expression is not static (has free symbols);
4. with 1–3 free symbols, sort them by descending hint (ties by name) and
   try `sympy.solve` for the first one: a single, truthy, slash-free
   solution is recorded in `replacements`, keyed by that symbol and mapped
   through `find`; a `NotImplementedError` with a single `Mod` atom falls
   back to solving for the `Mod` term, and a solution of exactly 0 records
   the corresponding `FloorDiv` in `divisible`.
The `Option` result is `none` when the source would raise: the size-hint
assertion fails, the static assertion fails, or `expr.lhs` is accessed on
a non-equality. -/
def ShapeEnv.evaluate_eq (env : ShapeEnv) (expr : SymExpr) :
    ShapeEnv × Option SymExpr :=
  let concrete_val := env.size_hint expr
  if ¬ isConcrete concrete_val then (env, none)
  else
    let env := { env with guards := env.guards ++ [(expr, concrete_val)] }
    if ¬ truthy concrete_val then (env, some concrete_val)
    else
      let free := freeSymbolsList expr
      if free.length = 0 then (env, none)
      else if free.length ≤ 3 then
        let sortedFree := sortByKey env.hintBefore free
        match expr with
        | .eq lhs rhs =>
          let free0 := SymExpr.sym (sortedFree.headD "")
          match sympySolve (mkSub lhs rhs) free0 with
          | .ok solutions =>
              if h : solutions.length = 1 then
                let sol := solutions.head (by intro hn; simp [hn] at h)
                if truthy sol ∧ ¬ hasDivTok sol then
                  let p := env.find sol
                  let new_var := p.2
                  ({ p.1 with replacements := aset p.1.replacements free0 new_var },
                   some concrete_val)
                else (env, some concrete_val)
              else (env, some concrete_val)
          | .error _ =>
              let mods := atomsMod expr
              if h : mods.length = 1 then
                let mod_expr := mods.head (by intro hn; simp [hn] at h)
                match sympySolve (mkSub lhs rhs) mod_expr with
                | .ok solutions =>
                    if solutions.length = 1 ∧ solutions.headD (.intLit 1) = .intLit 0 then
                      match mod_expr with
                      | .mod a b =>
                          ({ env with divisible := insertAbsent env.divisible (mkFloorDiv a b) },
                           some concrete_val)
                      | _ => (env, some concrete_val)
                    else (env, some concrete_val)
                | .error _ => (env, some concrete_val)
              else (env, some concrete_val)
        | _ => (env, none)
      else (env, some concrete_val)

/-- `ShapeEnv.evaluate_expr(expr)`:
1. an expression with no free symbols is returned as-is;
2. otherwise simplify, then try the guard-free static evaluation — a hit
   is returned with no guard recorded;
3. an equality delegates to `evaluate_eq`;
4. otherwise the concrete value is computed from the real bindings and
   `(expr, value)` is appended to the guard log.
`none` models an exception propagating out of the wrapping
`try`/`except` (which only prints and re-raises). -/
def ShapeEnv.evaluate_expr (env : ShapeEnv) (expr : SymExpr) :
    ShapeEnv × Option SymExpr :=
  if (freeSymbolsList expr).length = 0 then (env, some expr)
  else
    let p := env.simplify expr
    let env1 := p.1
    let expr1 := p.2
    match env1.maybe_evaluate_static expr1 with
    | some static_expr => (env1, some static_expr)
    | none =>
        match expr1 with
        | .eq a b => env1.evaluate_eq (.eq a b)
        | _ =>
            let concrete_val := env1.size_hint expr1
            if isConcrete concrete_val then
              ({ env1 with guards := env1.guards ++ [(expr1, concrete_val)] },
               some concrete_val)
            else (env1, none)

/-- `int(...)` on a concrete sympy value. -/
def toIntLit : SymExpr → Option Int
  | .intLit n => some n
  | .boolLit b => some (if b then 1 else 0)
  | _ => none

/-- `PySymInt.guard_int(file, line)`:
`int(self.shape_env.evaluate_expr(self.expr))`. -/
def PySymInt.guard_int (env : ShapeEnv) (self : PySymInt) :
    ShapeEnv × Option Int :=
  let p := env.evaluate_expr self.expr
  (p.1, p.2.bind toIntLit)

/-- `PySymInt.__bool__`: `bool(self.shape_env.evaluate_expr(self.expr))`. -/
def PySymInt.bool_coerce (env : ShapeEnv) (self : PySymInt) :
    ShapeEnv × Option Bool :=
  let p := env.evaluate_expr self.expr
  (p.1, p.2.map truthy)

/-! ## Sequences of public operations on a `ShapeEnv` (for the
state-growth invariant) -/

/-- One public operation on a `ShapeEnv`. -/
inductive SEOp where
  | createSymint (name : String) (val : Int)
  | evaluateExpr (e : SymExpr)
  | evaluateEq (e : SymExpr)
  | simplifyOp (e : SymExpr)
  | guardInt (p : PySymInt)
  | boolCoerce (p : PySymInt)

/-- The state effect of one public operation (with sympy available).  A
raised exception leaves the environment in the state it had reached at
the raise point, exactly as in Python. -/
def SEOp.step (env : ShapeEnv) : SEOp → ShapeEnv
  | .createSymint n v =>
      match ShapeEnv.create_symint true env n v with
      | .ok p => p.1
      | .error _ => env
  | .evaluateExpr e => (env.evaluate_expr e).1
  | .evaluateEq e => (env.evaluate_eq e).1
  | .simplifyOp e => (env.simplify e).1
  | .guardInt p => (PySymInt.guard_int env p).1
  | .boolCoerce p => (PySymInt.bool_coerce env p).1

/-- Run a sequence of public operations. -/
def SEOp.run (env : ShapeEnv) : List SEOp → ShapeEnv
  | [] => env
  | op :: rest => SEOp.run (op.step env) rest

/-! ## Helper lemmas -/

/-- Bounds of the floor-convention remainder for a negative divisor: it
has the divisor's sign and smaller magnitude. -/
theorem fmod_neg_bounds : ∀ (a : Int) {b : Int}, b < 0 →
    b < a.fmod b ∧ a.fmod b ≤ 0 := by
  intro a b hb
  match a, b with
  | _, .ofNat n =>
      rw [Int.ofNat_eq_coe] at hb
      exact absurd hb (by omega)
  | .ofNat 0, .negSucc n =>
      have h2 : Int.fmod (.ofNat 0) (.negSucc n) = 0 := rfl
      rw [h2, Int.negSucc_eq]
      omega
  | .ofNat (Nat.succ m), .negSucc n =>
      have h1 : m % (n + 1) < n + 1 := Nat.mod_lt _ (by omega)
      have h2 : Int.fmod (.ofNat (Nat.succ m)) (.negSucc n) =
          Int.subNatNat (m % Nat.succ n) n := rfl
      rw [h2, Int.subNatNat_eq_coe, Int.negSucc_eq]
      simp only [Nat.succ_eq_add_one]
      omega
  | .negSucc m, .negSucc n =>
      have h1 : (m + 1) % (n + 1) < n + 1 := Nat.mod_lt _ (by omega)
      have h2 : Int.fmod (.negSucc m) (.negSucc n) =
          -Int.ofNat (Nat.succ m % Nat.succ n) := rfl
      rw [h2, Int.ofNat_eq_coe, Int.negSucc_eq]
      simp only [Nat.succ_eq_add_one]
      omega

/-! ## Claim theorems -/

/-- C1: `evaluate_guards_for_args` is claimed to return a boolean that
validates the logged guards against fresh argument sizes.  The code as
written cannot: its call
`self.create_shapes_for_args(args, var_to_val=env)` passes a keyword the
callee does not declare, so every invocation raises `TypeError` before a
single guard is examined — no boolean is ever returned. -/
theorem c1_replay_always_raises_type_error :
    ∀ (env : ShapeEnv) (args : Pytree),
      env.evaluate_guards_for_args args =
        .error "TypeError: create_shapes_for_args() got an unexpected keyword argument" := by
  intro env args
  rfl

/-- C6: for concrete integers `a`, `b` with `b ≠ 0`, constructing
`FloorDiv(a, b)` evaluates immediately to a plain integer node holding
the exact floor-division result `a // b` — characterized by the
floor-convention remainder (nonnegative and below `b` for positive `b`,
nonpositive and above `b` for negative `b`, i.e. rounding toward negative
infinity even for mixed signs), and no symbolic `FloorDiv` node is
retained. -/
theorem c6_floordiv_concrete_eval (a b : Int) (hb : b ≠ 0) :
    ∃ q r : Int,
      mkFloorDiv (.intLit a) (.intLit b) = .intLit q ∧
      q = a.fdiv b ∧
      a = b * q + r ∧
      (0 < b → 0 ≤ r ∧ r < b) ∧
      (b < 0 → b < r ∧ r ≤ 0) := by
  refine ⟨a.fdiv b, a.fmod b, ?_, rfl, ?_, ?_, ?_⟩
  · by_cases ha : a = 0
    · subst ha
      simp [mkFloorDiv, Int.zero_fdiv]
    · by_cases hb1 : b = 1
      · subst hb1
        simp [mkFloorDiv, Int.fdiv_one, ha]
      · simp only [mkFloorDiv]
        rw [if_neg (by simp [ha]), if_neg (by simp [hb1])]
  · have h := Int.fdiv_add_fmod a b
    omega
  · intro hpos
    exact ⟨Int.fmod_nonneg' a hpos, Int.fmod_lt_of_pos a hpos⟩
  · intro hneg
    exact fmod_neg_bounds a hneg

/-- Witness for C6 at a mixed-sign input: `FloorDiv(-7, 2)` evaluates to
`-4` (floor, not the truncation `-3`). -/
theorem c6_floordiv_concrete_eval_witness :
    (2 : Int) ≠ 0 ∧
    (∃ q r : Int,
      mkFloorDiv (.intLit (-7)) (.intLit 2) = .intLit q ∧
      q = Int.fdiv (-7) 2 ∧
      (-7 : Int) = 2 * q + r ∧
      ((0 : Int) < 2 → 0 ≤ r ∧ r < 2) ∧
      ((2 : Int) < 0 → 2 < r ∧ r ≤ 0)) ∧
    mkFloorDiv (.intLit (-7)) (.intLit 2) = .intLit (-4) :=
  ⟨by decide, c6_floordiv_concrete_eval (-7) 2 (by decide), by decide⟩

/-- C7: `FloorDiv(0, d) = 0` for every nonzero `d`, and `FloorDiv(x, 1) = x`
for every base `x` (both direct short-circuits of `FloorDiv.eval`). -/
theorem c7_floordiv_identities :
    (∀ d : Int, d ≠ 0 → mkFloorDiv (.intLit 0) (.intLit d) = .intLit 0) ∧
    (∀ x : SymExpr, mkFloorDiv x (.intLit 1) = x) := by
  constructor
  · intro d _
    rfl
  · intro x
    by_cases hx : x = .intLit 0
    · subst hx
      rfl
    · rw [mkFloorDiv.eq_def, if_neg hx]
      rfl

/-- Witness for C7 at `d = 5`, `x = s0`. -/
theorem c7_floordiv_identities_witness :
    (5 : Int) ≠ 0 ∧
    mkFloorDiv (.intLit 0) (.intLit 5) = .intLit 0 ∧
    mkFloorDiv (.sym "s0") (.intLit 1) = .sym "s0" :=
  ⟨by decide, c7_floordiv_identities.1 5 (by decide),
   c7_floordiv_identities.2 (.sym "s0")⟩

/-- C9: the three usage errors raise immediately: plain `int()` coercion
of a symbolic integer; re-entering a dispatch mode that already has an
`inner` attribute (it was entered before); and `create_symint` without
sympy available. -/
theorem c9_usage_errors_raise :
    (∀ p : PySymInt,
       p.int_coerce = .error "Trying to extract a concrete int out of a symbolic int") ∧
    (∀ (w : DispatchWorld) (m : Nat) (saved : Option Nat),
       mlookup w.inner m = some saved →
       SymDispatchMode.enter w m =
         .error "has already been used as a mode. Please use a fresh version") ∧
    (∀ (env : ShapeEnv) (n : String) (v : Int),
       ShapeEnv.create_symint false env n v =
         .error "Need sympy installed to create symbolic shapes") := by
  refine ⟨fun p => rfl, ?_, fun env n v => rfl⟩
  intro w m saved h
  simp [SymDispatchMode.enter, h]

/-- Witness for C9: a fresh mode entered once and then entered again. -/
theorem c9_usage_errors_raise_witness :
    PySymInt.int_coerce { expr := .sym "s0", shape_env := 0 } =
      .error "Trying to extract a concrete int out of a symbolic int" ∧
    (mlookup (DispatchWorld.mk (some 1) [(1, none)]).inner 1 = some none ∧
     SymDispatchMode.enter (DispatchWorld.mk (some 1) [(1, none)]) 1 =
       .error "has already been used as a mode. Please use a fresh version") ∧
    ShapeEnv.create_symint false ShapeEnv.init "s0" 5 =
      .error "Need sympy installed to create symbolic shapes" :=
  ⟨c9_usage_errors_raise.1 _,
   ⟨rfl, c9_usage_errors_raise.2.1 _ 1 none rfl⟩,
   c9_usage_errors_raise.2.2 ShapeEnv.init "s0" 5⟩

/-- C10: every reflectable operator (`add`, `sub`, `mul`, `mod`,
`floordiv`) registers the very same generated implementation for
`__rfoo__` as for `__foo__`, so `a.__rOP__(n)` (invoked for `n OP a`)
returns exactly what `a.__OP__(n)` returns; in particular the expression
is always built with the symbolic scalar's expression as the *left*
operand, so `n - a` yields `a.expr - n` (and similarly for `mod` and
`floordiv`). -/
theorem c10_reflected_methods_not_swapped :
    (∀ m, m ∈ ["add", "sub", "mul", "mod", "floordiv"] →
       pySymIntRMethod m = pySymIntMethod m) ∧
    (∀ (a : PySymInt) (n : SymExpr),
       (pySymIntRMethod "sub").map (fun f => f false a (.plain n)) =
         some (.result { expr := mkSub a.expr n, shape_env := a.shape_env }) ∧
       (pySymIntRMethod "mod").map (fun f => f false a (.plain n)) =
         some (.result { expr := mkMod a.expr n, shape_env := a.shape_env }) ∧
       (pySymIntRMethod "floordiv").map (fun f => f false a (.plain n)) =
         some (.result { expr := mkFloorDiv a.expr n, shape_env := a.shape_env })) := by
  constructor
  · intro m hm
    simp only [List.mem_cons, List.mem_singleton] at hm
    rcases hm with rfl | rfl | rfl | rfl | rfl | h
    · rfl
    · rfl
    · rfl
    · rfl
    · rfl
    · exact absurd h (List.not_mem_nil m)
  · intro a n
    exact ⟨rfl, rfl, rfl⟩

/-- Witness for C10 at `m = "sub"` and a concrete scalar. -/
theorem c10_reflected_methods_not_swapped_witness :
    pySymIntRMethod "sub" = pySymIntMethod "sub" ∧
    (pySymIntRMethod "sub").map
        (fun f => f false { expr := .sym "s0", shape_env := 0 } (.plain (.intLit 3))) =
      some (.result { expr := mkSub (.sym "s0") (.intLit 3), shape_env := 0 }) :=
  ⟨c10_reflected_methods_not_swapped.1 "sub" (by decide),
   (c10_reflected_methods_not_swapped.2 { expr := .sym "s0", shape_env := 0 } (.intLit 3)).1⟩

/-- C8: when a mode `m` is the active dispatch mode, an intercepted
operation invokes exactly `m`'s handler; while the handler runs the
global slot holds `m`'s saved inner mode `i`, so a further intercepted
operation performed by the handler routes to `i`'s handler (the next
outer mode), not back to `m`; and after the dispatch returns — whatever
the handler's `Except` outcome and whatever it did to the slot — the
`finally` block restores `m` as the active mode. -/
theorem c8_dispatch_routes_to_saved_inner {α : Type}
    (dispatchOf : Nat → DispatchWorld → DispatchWorld × Except String α)
    (w : DispatchWorld) (m : Nat) (i : Option Nat)
    (hslot : w.slot = some m) (hinner : mlookup w.inner m = some i) :
    (handleSymDispatch dispatchOf w =
       some ({ (dispatchOf m { w with slot := i }).1 with slot := some m },
             (dispatchOf m { w with slot := i }).2)) ∧
    (∀ n j, i = some n → mlookup w.inner n = some j →
       handleSymDispatch dispatchOf { w with slot := i } =
         some ({ (dispatchOf n { w with slot := j }).1 with slot := some n },
               (dispatchOf n { w with slot := j }).2)) := by
  constructor
  · simp [handleSymDispatch, hslot, hinner]
  · intro n j hi hj
    subst hi
    simp [handleSymDispatch, hj]

/-- Witness for C8: enter mode 1, then mode 2; dispatch runs mode 2's
handler with mode 1 active, and a nested dispatch from inside runs mode
1's handler; mode 2's handler here raises, and the active mode is
restored to 2 all the same. -/
theorem c8_dispatch_routes_to_saved_inner_witness :
    (DispatchWorld.mk (some 2) [(1, none), (2, some 1)]).slot = some 2 ∧
    mlookup (DispatchWorld.mk (some 2) [(1, none), (2, some 1)]).inner 2 = some (some 1) ∧
    (handleSymDispatch
        (fun n w => (w, if n = 2 then .error "boom" else .ok (37 : Nat)))
        (DispatchWorld.mk (some 2) [(1, none), (2, some 1)]) =
      some (DispatchWorld.mk (some 2) [(1, none), (2, some 1)], .error "boom")) ∧
    (handleSymDispatch
        (fun n w => (w, if n = 2 then .error "boom" else .ok (37 : Nat)))
        (DispatchWorld.mk (some 1) [(1, none), (2, some 1)]) =
      some (DispatchWorld.mk (some 1) [(1, none), (2, some 1)], .ok 37)) := by
  have h := c8_dispatch_routes_to_saved_inner
    (fun n w => (w, if n = 2 then .error "boom" else .ok (37 : Nat)))
    (DispatchWorld.mk (some 2) [(1, none), (2, some 1)]) 2 (some 1) rfl rfl
  exact ⟨rfl, rfl, h.1, h.2 1 none rfl rfl⟩

/-- The value `create_symint` returns for dimension `p.1` of size `p.2`
under tensor counter `cnt` (the state-independent part of
`createShapeDims`). -/
def dimVal (cnt : Nat) (p : Nat × Int) : SymIntOrInt :=
  if p.2 = 0 ∨ p.2 = 1 then .lit p.2
  else .symint { expr := .sym (s!"s_{cnt}[{p.1}]"), shape_env := 0 }

/-- With sympy available, `createShapeDims` always succeeds and returns
one `dimVal` per enumerated dimension. -/
theorem createShapeDims_spec :
    ∀ (l : List (Nat × Int)) (env : ShapeEnv) (cnt : Nat),
      ∃ env2, createShapeDims true env cnt l = .ok (env2, l.map (dimVal cnt)) := by
  intro l
  induction l with
  | nil => exact fun env cnt => ⟨env, rfl⟩
  | cons hd rest ih =>
      intro env cnt
      obtain ⟨idx, sz⟩ := hd
      by_cases h : sz = 0 ∨ sz = 1
      · obtain ⟨env2, h2⟩ := ih env cnt
        refine ⟨env2, ?_⟩
        simp [createShapeDims, ShapeEnv.create_symint, h, h2, dimVal]
      · obtain ⟨env2, h2⟩ :=
          ih { env with var_to_val := nset env.var_to_val (s!"s_{cnt}[{idx}]") sz } cnt
        refine ⟨env2, ?_⟩
        simp [createShapeDims, ShapeEnv.create_symint, h, h2, dimVal]

/-- With sympy available, processing a tensor leaf yields the shape list
of `dimVal`s and increments the tensor counter. -/
theorem create_shape_tensor_spec (tid : Nat) (shape : List Int)
    (env : ShapeEnv) (cnt : Nat) :
    ∃ env2, ShapeEnv.create_shape true env cnt (.tensor tid shape) =
      .ok (env2, cnt + 1, .shape (shape.enum.map (dimVal cnt))) := by
  obtain ⟨env2, h⟩ := createShapeDims_spec shape.enum env cnt
  exact ⟨env2, by simp [ShapeEnv.create_shape, h]⟩

/-- With sympy available, flattening `[tensor, tensor]` gives the two
occurrences counters 0 and 1. -/
theorem create_shapes_for_args_twice_spec (tid : Nat) (shape : List Int)
    (env : ShapeEnv) :
    ∃ env2, ShapeEnv.create_shapes_for_args true env
        (.node [.leaf (.tensor tid shape), .leaf (.tensor tid shape)]) =
      .ok (env2, [.shape (shape.enum.map (dimVal 0)),
                  .shape (shape.enum.map (dimVal 1))]) := by
  obtain ⟨envA, hA⟩ := create_shape_tensor_spec tid shape env 0
  obtain ⟨envB, hB⟩ := create_shape_tensor_spec tid shape envA 1
  refine ⟨envB, ?_⟩
  have hflat : treeFlatten (.node [.leaf (.tensor tid shape), .leaf (.tensor tid shape)]) =
      [.tensor tid shape, .tensor tid shape] := rfl
  simp [ShapeEnv.create_shapes_for_args, hflat, createShapesList, hA, hB]

/-- The per-occurrence symbol names differ: occurrence 0 mints
`s_0[idx]`, occurrence 1 mints `s_1[idx]`. -/
theorem dimVal_names_differ (idx : Nat) (sz : Int) (h0 : sz ≠ 0) (h1 : sz ≠ 1) :
    dimVal 0 (idx, sz) ≠ dimVal 1 (idx, sz) := by
  intro h
  have hcond : ¬ (sz = 0 ∨ sz = 1) := fun hc => hc.elim h0 h1
  simp only [dimVal] at h
  rw [if_neg hcond, if_neg hcond] at h
  injection h with h
  injection h with h
  injection h with hname
  have hd := congrArg String.data hname
  simp [String.data_append] at hd
  exact absurd hd (by decide)

/-- C2 counterexample: the same tensor object (identity 7, shape (2,3))
reachable via two paths through the argument structure gets two *fresh*
symbol sets (`s_0[…]` for the first occurrence, `s_1[…]` for the second),
not one shared set — the claim's required aliasing behavior does not hold. -/
theorem c2_counterexample :
    ShapeEnv.create_shapes_for_args true ShapeEnv.init
        (.node [.leaf (.tensor 7 [2, 3]), .leaf (.tensor 7 [2, 3])]) =
      .ok ({ guards := [],
             var_to_val := [("s_0[0]", 2), ("s_0[1]", 3), ("s_1[0]", 2), ("s_1[1]", 3)],
             replacements := [], divisible := [] },
           [.shape [.symint { expr := .sym "s_0[0]", shape_env := 0 },
                    .symint { expr := .sym "s_0[1]", shape_env := 0 }],
            .shape [.symint { expr := .sym "s_1[0]", shape_env := 0 },
                    .symint { expr := .sym "s_1[1]", shape_env := 0 }]]) ∧
    ShapeElem.shape [.symint { expr := .sym "s_0[0]", shape_env := 0 },
                     .symint { expr := .sym "s_0[1]", shape_env := 0 }] ≠
      ShapeElem.shape [.symint { expr := .sym "s_1[0]", shape_env := 0 },
                       .symint { expr := .sym "s_1[1]", shape_env := 0 }] := by
  exact ⟨rfl, by decide⟩

/-- C2 amended: `create_shapes_for_args` processes each flattened leaf
independently with a per-occurrence tensor counter, so the same tensor
object reachable via two different paths receives two *distinct* freshly
allocated symbol sets (`s_0[idx]` vs `s_1[idx]` for every non-0/1-sized
dimension `idx`), never one shared set. -/
theorem c2_amended_fresh_symbols_per_occurrence
    (tid : Nat) (shape : List Int) (idx : Nat) (sz : Int) (env : ShapeEnv)
    (envOut : ShapeEnv) (elems : List ShapeElem)
    (hget : shape[idx]? = some sz) (h0 : sz ≠ 0) (h1 : sz ≠ 1)
    (hrun : ShapeEnv.create_shapes_for_args true env
        (.node [.leaf (.tensor tid shape), .leaf (.tensor tid shape)]) =
      .ok (envOut, elems)) :
    ∃ dims0 dims1,
      elems = [.shape dims0, .shape dims1] ∧
      dims0[idx]? = some (dimVal 0 (idx, sz)) ∧
      dims1[idx]? = some (dimVal 1 (idx, sz)) ∧
      dims0[idx]? ≠ dims1[idx]? := by
  obtain ⟨env2, hspec⟩ := create_shapes_for_args_twice_spec tid shape env
  rw [hspec] at hrun
  injection hrun with hrun
  injection hrun with henv helems
  refine ⟨shape.enum.map (dimVal 0), shape.enum.map (dimVal 1), helems.symm, ?_, ?_, ?_⟩
  · rw [List.getElem?_map, List.getElem?_enum, hget]
    rfl
  · rw [List.getElem?_map, List.getElem?_enum, hget]
    rfl
  · rw [List.getElem?_map, List.getElem?_enum, hget, List.getElem?_map,
      List.getElem?_enum, hget]
    simp only [Option.map_some']
    intro h
    injection h with h
    exact dimVal_names_differ idx sz h0 h1 h

/-- Witness for the amended C2 at tensor identity 7, shape (2,3),
dimension 0 of size 2. -/
theorem c2_amended_fresh_symbols_per_occurrence_witness :
    ∃ dims0 dims1,
      ([ShapeElem.shape [.symint { expr := .sym "s_0[0]", shape_env := 0 },
                         .symint { expr := .sym "s_0[1]", shape_env := 0 }],
        ShapeElem.shape [.symint { expr := .sym "s_1[0]", shape_env := 0 },
                         .symint { expr := .sym "s_1[1]", shape_env := 0 }]] : List ShapeElem) =
        [.shape dims0, .shape dims1] ∧
      dims0[0]? = some (dimVal 0 (0, 2)) ∧
      dims1[0]? = some (dimVal 1 (0, 2)) ∧
      dims0[0]? ≠ dims1[0]? :=
  c2_amended_fresh_symbols_per_occurrence 7 [2, 3] 0 2 ShapeEnv.init
    { guards := [],
      var_to_val := [("s_0[0]", 2), ("s_0[1]", 3), ("s_1[0]", 2), ("s_1[1]", 3)],
      replacements := [], divisible := [] }
    _ (by decide) (by decide) (by decide) rfl

/-! ## State-preservation lemmas for the evaluator pipeline -/

/-- `find` never touches the guard log. -/
theorem find_guards (env : ShapeEnv) (a : SymExpr) :
    (env.find a).1.guards = env.guards := rfl

/-- `find` never touches `divisible`. -/
theorem find_divisible (env : ShapeEnv) (a : SymExpr) :
    (env.find a).1.divisible = env.divisible := rfl

/-- `find` never touches `var_to_val`. -/
theorem find_var_to_val (env : ShapeEnv) (a : SymExpr) :
    (env.find a).1.var_to_val = env.var_to_val := rfl

/-- The substitution-building loop of `replace` never touches the guard
log. -/
theorem buildRepl_guards :
    ∀ (l : List String) (env : ShapeEnv),
      (ShapeEnv.buildRepl env l).1.guards = env.guards := by
  intro l
  induction l with
  | nil => intro env; rfl
  | cons n rest ih =>
      intro env
      show (ShapeEnv.buildRepl (env.find (.sym n)).1 rest).1.guards = env.guards
      rw [ih, find_guards]

/-- `replace` never touches the guard log. -/
theorem replace_guards (env : ShapeEnv) (e : SymExpr) :
    (env.replace e).1.guards = env.guards := by
  show (ShapeEnv.buildRepl env (freeSymbolsList e)).1.guards = env.guards
  exact buildRepl_guards _ env

/-- The `update_divisible` loop never touches the guard log. -/
theorem updateDivisibleGo_guards :
    ∀ (l : List SymExpr) (env : ShapeEnv) (acc : List SymExpr),
      (ShapeEnv.updateDivisibleGo env acc l).1.guards = env.guards := by
  intro l
  induction l with
  | nil => intro env acc; rfl
  | cons a rest ih =>
      intro env acc
      simp only [ShapeEnv.updateDivisibleGo]
      split
      · rw [ih, replace_guards]
      · rw [ih, replace_guards]

/-- `update_divisible` never touches the guard log. -/
theorem update_divisible_guards (env : ShapeEnv) :
    env.update_divisible.guards = env.guards := by
  show (ShapeEnv.updateDivisibleGo env [] env.divisible).1.guards = env.guards
  exact updateDivisibleGo_guards _ env []

/-- `simplify` never touches the guard log. -/
theorem simplify_guards (env : ShapeEnv) (e : SymExpr) :
    (env.simplify e).1.guards = env.guards := by
  simp only [ShapeEnv.simplify]
  split
  · rw [update_divisible_guards, replace_guards]
  · exact replace_guards env e

/-- A `maybe_evaluate_static` hit is a fully concrete value. -/
theorem maybe_evaluate_static_concrete (env : ShapeEnv) (e v : SymExpr)
    (h : env.maybe_evaluate_static e = some v) : isConcrete v = true := by
  simp only [ShapeEnv.maybe_evaluate_static] at h
  split at h
  · injection h with h
    subst h
    simp only [isConcrete]
    rename_i hlen
    rw [List.length_eq_zero] at hlen
    simp [hlen]
  · exact absurd h (by simp)

/-- C5: when the simplified expression collapses to a concrete value
under the guard-free static evaluation (each free symbol replaced by a
fresh placeholder known only to be an integer greater than 1),
`evaluate_expr` returns that value and the guard log is left unchanged —
no guard is recorded on this path. -/
theorem c5_static_path_records_no_guard
    (env : ShapeEnv) (expr v : SymExpr)
    (hfree : (freeSymbolsList expr).length ≠ 0)
    (hstatic : ShapeEnv.maybe_evaluate_static (env.simplify expr).1
        (env.simplify expr).2 = some v) :
    env.evaluate_expr expr = ((env.simplify expr).1, some v) ∧
    (env.evaluate_expr expr).1.guards = env.guards ∧
    isConcrete v = true := by
  have hmain : env.evaluate_expr expr = ((env.simplify expr).1, some v) := by
    simp only [ShapeEnv.evaluate_expr, if_neg hfree]
    rw [hstatic]
  refine ⟨hmain, ?_, maybe_evaluate_static_concrete _ _ _ hstatic⟩
  rw [hmain]
  exact simplify_guards env expr

/-- Witness for C5: `s0 > 1` cannot be decided from the real size (none
is even recorded), but under the placeholder assumption `s0 = shape_0 + 1
> 1` it collapses to `True`; `evaluate_expr` returns it with the guard
log untouched. -/
theorem c5_static_path_records_no_guard_witness :
    (freeSymbolsList (.gt (.sym "s0") (.intLit 1))).length ≠ 0 ∧
    ShapeEnv.maybe_evaluate_static
        (ShapeEnv.init.simplify (.gt (.sym "s0") (.intLit 1))).1
        (ShapeEnv.init.simplify (.gt (.sym "s0") (.intLit 1))).2 =
      some (.boolLit true) ∧
    ShapeEnv.init.evaluate_expr (.gt (.sym "s0") (.intLit 1)) =
      ((ShapeEnv.init.simplify (.gt (.sym "s0") (.intLit 1))).1,
       some (.boolLit true)) ∧
    (ShapeEnv.init.evaluate_expr (.gt (.sym "s0") (.intLit 1))).1.guards =
      ShapeEnv.init.guards :=
  ⟨by decide, by decide,
   (c5_static_path_records_no_guard ShapeEnv.init (.gt (.sym "s0") (.intLit 1))
      (.boolLit true) (by decide) (by decide)).1,
   (c5_static_path_records_no_guard ShapeEnv.init (.gt (.sym "s0") (.intLit 1))
      (.boolLit true) (by decide) (by decide)).2.1⟩

/-! ## Key-set growth lemmas (`replacements` never loses a key) -/

/-- Python dict assignment preserves every existing key. -/
theorem mem_keys_aset {l : List (SymExpr × SymExpr)} {k v x : SymExpr}
    (h : x ∈ l.map Prod.fst) : x ∈ (aset l k v).map Prod.fst := by
  induction l with
  | nil => simp at h
  | cons hd t ih =>
      obtain ⟨k0, v0⟩ := hd
      simp only [aset]
      split
      · rename_i hk
        simp only [List.map_cons, List.mem_cons] at h ⊢
        rcases h with h | h
        · exact Or.inl (hk ▸ h)
        · exact Or.inr h
      · simp only [List.map_cons, List.mem_cons] at h ⊢
        rcases h with h | h
        · exact Or.inl h
        · exact Or.inr (ih h)

/-- Path compression preserves every existing key. -/
theorem mem_keys_compressPath :
    ∀ (fuel : Nat) (repl : List (SymExpr × SymExpr)) (a root x : SymExpr),
      x ∈ repl.map Prod.fst →
      x ∈ (compressPath root repl a fuel).map Prod.fst := by
  intro fuel
  induction fuel with
  | zero => intro repl a root x h; exact h
  | succ fuel ih =>
      intro repl a root x h
      simp only [compressPath]
      split
      · exact h
      · exact ih _ _ _ _ (mem_keys_aset h)

/-- `find` preserves every existing key of `replacements`. -/
theorem find_keys (env : ShapeEnv) (a x : SymExpr)
    (h : x ∈ env.replacements.map Prod.fst) :
    x ∈ (env.find a).1.replacements.map Prod.fst :=
  mem_keys_compressPath _ _ _ _ _ h

/-- The substitution-building loop preserves every existing key. -/
theorem buildRepl_keys :
    ∀ (l : List String) (env : ShapeEnv) (x : SymExpr),
      x ∈ env.replacements.map Prod.fst →
      x ∈ (ShapeEnv.buildRepl env l).1.replacements.map Prod.fst := by
  intro l
  induction l with
  | nil => intro env x h; exact h
  | cons n rest ih =>
      intro env x h
      show x ∈ (ShapeEnv.buildRepl (env.find (.sym n)).1 rest).1.replacements.map Prod.fst
      exact ih _ _ (find_keys env _ _ h)

/-- `replace` preserves every existing key. -/
theorem replace_keys (env : ShapeEnv) (e : SymExpr) (x : SymExpr)
    (h : x ∈ env.replacements.map Prod.fst) :
    x ∈ (env.replace e).1.replacements.map Prod.fst :=
  buildRepl_keys _ env x h

/-- The `update_divisible` loop preserves every existing key. -/
theorem updateDivisibleGo_keys :
    ∀ (l : List SymExpr) (env : ShapeEnv) (acc : List SymExpr) (x : SymExpr),
      x ∈ env.replacements.map Prod.fst →
      x ∈ (ShapeEnv.updateDivisibleGo env acc l).1.replacements.map Prod.fst := by
  intro l
  induction l with
  | nil => intro env acc x h; exact h
  | cons a rest ih =>
      intro env acc x h
      simp only [ShapeEnv.updateDivisibleGo]
      split
      · exact ih _ _ _ (replace_keys env a x h)
      · exact ih _ _ _ (replace_keys env a x h)

/-- `update_divisible` preserves every existing key. -/
theorem update_divisible_keys (env : ShapeEnv) (x : SymExpr)
    (h : x ∈ env.replacements.map Prod.fst) :
    x ∈ env.update_divisible.replacements.map Prod.fst :=
  updateDivisibleGo_keys _ env [] x h

/-- `simplify` preserves every existing key. -/
theorem simplify_keys (env : ShapeEnv) (e : SymExpr) (x : SymExpr)
    (h : x ∈ env.replacements.map Prod.fst) :
    x ∈ (env.simplify e).1.replacements.map Prod.fst := by
  simp only [ShapeEnv.simplify]
  split
  · exact update_divisible_keys _ _ (replace_keys env e x h)
  · exact replace_keys env e x h

/-- `evaluate_eq` preserves every existing key (it can only *add* a key
via the dict assignment `self.replacements[free[0]] = new_var`). -/
theorem evaluate_eq_keys (env : ShapeEnv) (e : SymExpr) (x : SymExpr)
    (h : x ∈ env.replacements.map Prod.fst) :
    x ∈ (env.evaluate_eq e).1.replacements.map Prod.fst := by
  simp only [ShapeEnv.evaluate_eq]
  repeat' split
  all_goals
    first
      | exact h
      | exact mem_keys_aset (find_keys _ _ _ h)

/-- `evaluate_expr` preserves every existing key. -/
theorem evaluate_expr_keys (env : ShapeEnv) (e : SymExpr) (x : SymExpr)
    (h : x ∈ env.replacements.map Prod.fst) :
    x ∈ (env.evaluate_expr e).1.replacements.map Prod.fst := by
  simp only [ShapeEnv.evaluate_expr]
  repeat' split
  all_goals
    first
      | exact h
      | exact simplify_keys env e x h
      | exact evaluate_eq_keys _ _ x (simplify_keys env e x h)

/-- One public operation preserves every existing key of `replacements`. -/
theorem step_keys (env : ShapeEnv) (op : SEOp) (x : SymExpr)
    (h : x ∈ env.replacements.map Prod.fst) :
    x ∈ (op.step env).replacements.map Prod.fst := by
  cases op with
  | createSymint n v =>
      by_cases hv : v = 0 ∨ v = 1
      · simp only [SEOp.step, ShapeEnv.create_symint, hv]
        simpa using h
      · simp only [SEOp.step, ShapeEnv.create_symint, hv]
        simpa using h
  | evaluateExpr e => exact evaluate_expr_keys env e x h
  | evaluateEq e => exact evaluate_eq_keys env e x h
  | simplifyOp e => exact simplify_keys env e x h
  | guardInt p => exact evaluate_expr_keys env p.expr x h
  | boolCoerce p => exact evaluate_expr_keys env p.expr x h

/-- C3 amended: over every sequence of public operations, the
`replacements` map only grows — no key is ever removed.  (`divisible`, by
contrast, can shrink: see the counterexample.) -/
theorem c3_replacements_only_grow
    (ops : List SEOp) (env : ShapeEnv) (x : SymExpr)
    (h : x ∈ env.replacements.map Prod.fst) :
    x ∈ (SEOp.run env ops).replacements.map Prod.fst := by
  induction ops generalizing env with
  | nil => exact h
  | cons op rest ih => exact ih _ (step_keys env op x h)

/-- C3 counterexample: a sequence of public operations after which
`divisible` *shrinks*.  `evaluate_eq(Mod(s0, 2) == 0)` records
`FloorDiv(s0, 2)` in `divisible` (size 1); `evaluate_eq(s0 == 4)` then
pins `s0 := 4`; the next `simplify` call triggers `update_divisible`,
which re-simplifies `FloorDiv(s0, 2)` to the concrete `2` and discards it
(size 0).  The claimed invariant that `divisible` never shrinks is false. -/
theorem c3_counterexample_divisible_shrinks :
    (SEOp.run ShapeEnv.init
        [.createSymint "s0" 4,
         .evaluateEq (mkEq (mkMod (.sym "s0") (.intLit 2)) (.intLit 0)),
         .evaluateEq (mkEq (.sym "s0") (.intLit 4)),
         .createSymint "s1" 5]).divisible.length = 1 ∧
    (SEOp.run ShapeEnv.init
        [.createSymint "s0" 4,
         .evaluateEq (mkEq (mkMod (.sym "s0") (.intLit 2)) (.intLit 0)),
         .evaluateEq (mkEq (.sym "s0") (.intLit 4)),
         .createSymint "s1" 5,
         .simplifyOp (mkFloorDiv (.sym "s1") (.intLit 3))]).divisible.length = 0 :=
  ⟨rfl, rfl⟩

/-- Witness for the amended C3 at a concrete key and operation sequence:
the binding `s0 ↦ 4` recorded by `evaluate_eq` survives a later
`simplify` (which shrinks `divisible`). -/
theorem c3_replacements_only_grow_witness :
    SymExpr.sym "s0" ∈
      (SEOp.run
        { guards := [], var_to_val := [("s0", 4), ("s1", 5)],
          replacements := [(.sym "s0", .intLit 4)],
          divisible := [.floorDiv (.sym "s0") (.intLit 2)] }
        [.simplifyOp (mkFloorDiv (.sym "s1") (.intLit 3))]).replacements.map Prod.fst :=
  c3_replacements_only_grow
    [.simplifyOp (mkFloorDiv (.sym "s1") (.intLit 3))]
    { guards := [], var_to_val := [("s0", 4), ("s1", 5)],
      replacements := [(.sym "s0", .intLit 4)],
      divisible := [.floorDiv (.sym "s0") (.intLit 2)] }
    (.sym "s0") (by decide)

/-! ## Properties of the `evaluate_eq` symbol-choice order -/

/-- The lexicographic comparison is total. -/
theorem listLeB_total : ∀ l1 l2 : List Char,
    listLeB l1 l2 = true ∨ listLeB l2 l1 = true := by
  intro l1
  induction l1 with
  | nil => intro l2; exact Or.inl rfl
  | cons c cs ih =>
      intro l2
      cases l2 with
      | nil => exact Or.inr rfl
      | cons d ds =>
          rcases Nat.lt_trichotomy c.toNat d.toNat with h | h | h
          · left
            simp only [listLeB]
            rw [if_pos h]
          · rcases ih ds with h2 | h2
            · left
              simp only [listLeB]
              rw [if_neg (by omega), if_neg (by omega)]
              exact h2
            · right
              simp only [listLeB]
              rw [if_neg (by omega), if_neg (by omega)]
              exact h2
          · right
            simp only [listLeB]
            rw [if_pos h]

/-- The lexicographic comparison is transitive. -/
theorem listLeB_trans : ∀ l1 l2 l3 : List Char,
    listLeB l1 l2 = true → listLeB l2 l3 = true → listLeB l1 l3 = true := by
  intro l1
  induction l1 with
  | nil => intro l2 l3 _ _; rfl
  | cons c cs ih =>
      intro l2 l3 h12 h23
      cases l2 with
      | nil => simp [listLeB] at h12
      | cons d ds =>
          cases l3 with
          | nil => simp [listLeB] at h23
          | cons e es =>
              simp only [listLeB] at h12 h23 ⊢
              by_cases hcd : c.toNat < d.toNat
              · by_cases hde : d.toNat < e.toNat
                · rw [if_pos (by omega)]
                · by_cases hed : e.toNat < d.toNat
                  · rw [if_neg hde, if_pos hed] at h23
                    exact absurd h23 (by simp)
                  · rw [if_pos (by omega)]
              · by_cases hdc : d.toNat < c.toNat
                · rw [if_neg hcd, if_pos hdc] at h12
                  exact absurd h12 (by simp)
                · rw [if_neg hcd, if_neg hdc] at h12
                  by_cases hde : d.toNat < e.toNat
                  · rw [if_pos (by omega)]
                  · by_cases hed : e.toNat < d.toNat
                    · rw [if_neg hde, if_pos hed] at h23
                      exact absurd h23 (by simp)
                    · rw [if_neg hde, if_neg hed] at h23
                      rw [if_neg (by omega), if_neg (by omega)]
                      exact ih ds es h12 h23

/-- Unfolding of the sort-key order. -/
theorem hintBefore_iff (env : ShapeEnv) (a b : String) :
    env.hintBefore a b = true ↔
      (env.hintOf b < env.hintOf a ∨
        (env.hintOf a = env.hintOf b ∧ strLeB a b = true)) := by
  simp [ShapeEnv.hintBefore]

/-- The sort-key order is total. -/
theorem hintBefore_total (env : ShapeEnv) (a b : String) :
    env.hintBefore a b = true ∨ env.hintBefore b a = true := by
  rw [hintBefore_iff, hintBefore_iff]
  rcases Int.lt_trichotomy (env.hintOf a) (env.hintOf b) with h | h | h
  · exact Or.inr (Or.inl h)
  · rcases listLeB_total a.data b.data with hab | hab
    · exact Or.inl (Or.inr ⟨h, hab⟩)
    · exact Or.inr (Or.inr ⟨h.symm, hab⟩)
  · exact Or.inl (Or.inl h)

/-- The sort-key order is transitive. -/
theorem hintBefore_trans (env : ShapeEnv) (a b c : String)
    (hab : env.hintBefore a b = true) (hbc : env.hintBefore b c = true) :
    env.hintBefore a c = true := by
  rw [hintBefore_iff] at hab hbc ⊢
  rcases hab with hab | ⟨hab1, hab2⟩
  · rcases hbc with hbc | ⟨hbc1, hbc2⟩
    · exact Or.inl (hbc.trans hab)
    · exact Or.inl (hbc1 ▸ hab)
  · rcases hbc with hbc | ⟨hbc1, hbc2⟩
    · exact Or.inl (hab1 ▸ hbc)
    · exact Or.inr ⟨hab1.trans hbc1, listLeB_trans a.data b.data c.data hab2 hbc2⟩

/-- Membership in `insertSorted`. -/
theorem mem_insertSorted (le : String → String → Bool) (x y : String) :
    ∀ l : List String, y ∈ insertSorted le x l ↔ y = x ∨ y ∈ l := by
  intro l
  induction l with
  | nil => simp [insertSorted]
  | cons z zs ih =>
      simp only [insertSorted]
      split
      · simp
      · simp only [List.mem_cons, ih]
        tauto

/-- The head of the insertion sort is a minimal element of the input
(for any total, transitive comparison). -/
theorem sortByKey_head_min (le : String → String → Bool)
    (htot : ∀ a b, le a b = true ∨ le b a = true)
    (htrans : ∀ a b c, le a b = true → le b c = true → le a c = true) :
    ∀ l : List String, l ≠ [] →
      ∃ h t, sortByKey le l = h :: t ∧ h ∈ l ∧ ∀ x ∈ l, le h x = true := by
  intro l
  induction l with
  | nil => intro hne; exact absurd rfl hne
  | cons x xs ih =>
      intro _
      have hrefl : ∀ a, le a a = true := fun a => (htot a a).elim id id
      by_cases hxs : xs = []
      · subst hxs
        refine ⟨x, [], by simp [sortByKey, insertSorted], by simp, ?_⟩
        intro y hy
        simp at hy
        subst hy
        exact hrefl y
      · obtain ⟨h, t, hsort, hmem, hmin⟩ := ih hxs
        have hstep : sortByKey le (x :: xs) = insertSorted le x (sortByKey le xs) := rfl
        rw [hstep, hsort]
        simp only [insertSorted]
        split
        · rename_i hle
          refine ⟨x, h :: t, rfl, by simp, ?_⟩
          intro y hy
          rcases List.mem_cons.mp hy with rfl | hy
          · exact hrefl y
          · exact htrans x h y hle (hmin y hy)
        · rename_i hnle
          have hle : le h x = true := by
            rcases htot x h with hc | hc
            · exact absurd hc hnle
            · exact hc
          refine ⟨h, insertSorted le x t, rfl, List.mem_cons.mpr (Or.inr hmem), ?_⟩
          intro y hy
          rcases List.mem_cons.mp hy with rfl | hy
          · exact hle
          · exact hmin y hy

/-- Dict lookup after dict assignment at the same key. -/
theorem alookup_aset_self : ∀ (l : List (SymExpr × SymExpr)) (k v : SymExpr),
    alookup (aset l k v) k = some v := by
  intro l
  induction l with
  | nil => intro k v; simp [aset, alookup]
  | cons hd tl ih =>
      intro k v
      obtain ⟨k0, v0⟩ := hd
      simp only [aset]
      split
      · simp [alookup]
      · rename_i hk
        simp only [alookup]
        rw [if_neg hk]
        exact ih k v

/-- Appending a guard does not change the sort-key order (it only reads
`var_to_val`). -/
theorem hintBefore_mk (g : List (SymExpr × SymExpr)) (env : ShapeEnv) :
    ShapeEnv.hintBefore
      { guards := g, var_to_val := env.var_to_val,
        replacements := env.replacements, divisible := env.divisible } =
      env.hintBefore := rfl

/-- The solution branch of `evaluate_eq`, fully evaluated: under the
branch conditions the result is the guard-appended, path-compressed
environment with `replacements[free[0]] = find(solutions[0])`. -/
theorem evaluate_eq_solution_branch (env : ShapeEnv) (lhs rhs sol : SymExpr)
    (hconc : isConcrete (env.size_hint (.eq lhs rhs)) = true)
    (ht : truthy (env.size_hint (.eq lhs rhs)) = true)
    (h1 : 1 ≤ (freeSymbolsList (.eq lhs rhs)).length)
    (h3 : (freeSymbolsList (.eq lhs rhs)).length ≤ 3)
    (hsolve : sympySolve (mkSub lhs rhs)
        (.sym ((sortByKey env.hintBefore (freeSymbolsList (.eq lhs rhs))).headD "")) =
      .ok [sol])
    (htr : truthy sol = true) (hdiv : hasDivTok sol = false) :
    env.evaluate_eq (.eq lhs rhs) =
      ({ (({ env with
             guards := env.guards ++ [(.eq lhs rhs, env.size_hint (.eq lhs rhs))] } :
               ShapeEnv).find sol).1 with
          replacements :=
            aset
              (({ env with
                  guards := env.guards ++ [(.eq lhs rhs, env.size_hint (.eq lhs rhs))] } :
                    ShapeEnv).find sol).1.replacements
              (.sym ((sortByKey env.hintBefore (freeSymbolsList (.eq lhs rhs))).headD ""))
              (({ env with
                  guards := env.guards ++ [(.eq lhs rhs, env.size_hint (.eq lhs rhs))] } :
                    ShapeEnv).find sol).2 },
       some (env.size_hint (.eq lhs rhs))) := by
  simp only [ShapeEnv.evaluate_eq]
  rw [if_neg (by simp [hconc])]
  rw [if_neg (by simp [ht])]
  rw [if_neg (by omega)]
  rw [if_pos h3]
  rw [hintBefore_mk]
  rw [hsolve]
  dsimp only
  rw [dif_pos (show ([sol] : List SymExpr).length = 1 from rfl)]
  simp only [List.head_cons]
  rw [if_pos (show truthy sol = true ∧ ¬ hasDivTok sol = true from ⟨htr, by simp [hdiv]⟩)]

/-- C4: for every equality handed to `evaluate_eq` whose concrete truth
value is computable from the real bindings:
(1) `(expr, value)` is appended to the guard log unconditionally;
(2) a false value returns immediately, leaving `replacements` and
`divisible` untouched;
(3) a true value with 1–3 free symbols and a single truthy non-fractional
closed-form solution records the free symbol with the *largest*
concrete-size hint (ties broken by symbol name) as a key in
`replacements`, mapped through `find` to the solution's canonical
representative. -/
theorem c4_evaluate_eq_contract (env : ShapeEnv) (lhs rhs : SymExpr)
    (hconc : isConcrete (env.size_hint (.eq lhs rhs)) = true) :
    (env.evaluate_eq (.eq lhs rhs)).1.guards =
      env.guards ++ [(.eq lhs rhs, env.size_hint (.eq lhs rhs))] ∧
    (truthy (env.size_hint (.eq lhs rhs)) = false →
       (env.evaluate_eq (.eq lhs rhs)).2 = some (env.size_hint (.eq lhs rhs)) ∧
       (env.evaluate_eq (.eq lhs rhs)).1.replacements = env.replacements ∧
       (env.evaluate_eq (.eq lhs rhs)).1.divisible = env.divisible) ∧
    (∀ sol,
       truthy (env.size_hint (.eq lhs rhs)) = true →
       1 ≤ (freeSymbolsList (.eq lhs rhs)).length →
       (freeSymbolsList (.eq lhs rhs)).length ≤ 3 →
       sympySolve (mkSub lhs rhs)
           (.sym ((sortByKey env.hintBefore (freeSymbolsList (.eq lhs rhs))).headD "")) =
         .ok [sol] →
       truthy sol = true →
       hasDivTok sol = false →
       ((sortByKey env.hintBefore (freeSymbolsList (.eq lhs rhs))).headD "") ∈
         freeSymbolsList (.eq lhs rhs) ∧
       (∀ s ∈ freeSymbolsList (.eq lhs rhs),
          env.hintBefore
            ((sortByKey env.hintBefore (freeSymbolsList (.eq lhs rhs))).headD "") s =
            true) ∧
       (env.evaluate_eq (.eq lhs rhs)).2 = some (env.size_hint (.eq lhs rhs)) ∧
       alookup (env.evaluate_eq (.eq lhs rhs)).1.replacements
           (.sym ((sortByKey env.hintBefore (freeSymbolsList (.eq lhs rhs))).headD "")) =
         some (findRoot env.replacements sol (env.replacements.length + 1))) := by
  refine ⟨?_, ?_, ?_⟩
  · simp only [ShapeEnv.evaluate_eq]
    rw [if_neg (by simp [hconc])]
    repeat' split
    all_goals rfl
  · intro hf
    simp only [ShapeEnv.evaluate_eq]
    rw [if_neg (by simp [hconc])]
    rw [if_pos (by simp [hf])]
    exact ⟨rfl, rfl, rfl⟩
  · intro sol ht h1 h3 hsolve htr hdiv
    have hne : freeSymbolsList (.eq lhs rhs) ≠ [] := by
      intro hnil
      rw [hnil] at h1
      simp at h1
    obtain ⟨h, t, hsort, hmem, hmin⟩ :=
      sortByKey_head_min env.hintBefore (hintBefore_total env) (hintBefore_trans env)
        (freeSymbolsList (.eq lhs rhs)) hne
    have hkd : (sortByKey env.hintBefore (freeSymbolsList (.eq lhs rhs))).headD "" = h := by
      rw [hsort]
      rfl
    have heval := evaluate_eq_solution_branch env lhs rhs sol hconc ht h1 h3 hsolve htr hdiv
    refine ⟨hkd ▸ hmem, ?_, ?_, ?_⟩
    · intro s hs
      rw [hkd]
      exact hmin s hs
    · rw [heval]
    · rw [heval]
      exact alookup_aset_self _ _ _

/-- The environment of the C4 witness: two symbols with equal hints. -/
def c4WitnessEnv : ShapeEnv :=
  { guards := [], var_to_val := [("s0", 8), ("s1", 8)],
    replacements := [], divisible := [] }

/-- Witness for C4: proving `s0 == s1` true (hints 8 and 8; the hint tie
is broken by name, so `s0` is eliminated) appends the guard and records
`replacements[s0] = s1`. -/
theorem c4_evaluate_eq_contract_witness :
    isConcrete (c4WitnessEnv.size_hint (.eq (.sym "s0") (.sym "s1"))) = true ∧
    (c4WitnessEnv.evaluate_eq (.eq (.sym "s0") (.sym "s1"))).1.guards =
      c4WitnessEnv.guards ++
        [(.eq (.sym "s0") (.sym "s1"),
          c4WitnessEnv.size_hint (.eq (.sym "s0") (.sym "s1")))] ∧
    alookup (c4WitnessEnv.evaluate_eq (.eq (.sym "s0") (.sym "s1"))).1.replacements
        (.sym "s0") =
      some (.sym "s1") := by
  have h := c4_evaluate_eq_contract c4WitnessEnv (.sym "s0") (.sym "s1") (by decide)
  have h3 := h.2.2 (.sym "s1") (by decide) (by decide) (by decide) rfl (by decide) (by decide)
  exact ⟨by decide, h.1, h3.2.2.2⟩
